import Mathlib

/-!
Verification of the categorical aggregation and reporting engine of the
LFS-Data-Cleaners repository (src/demographics/*.py).

The Python scripts are shallowly embedded: each relevant Python function is
translated into an executable Lean definition operating on `Record` values
(field-keyed rows with optional string fields), with Python dicts of sets
modelled as insertion-ordered association lists with `Finset String` values,
and float percentages modelled as exact rationals.
-/

namespace LFS

/-! ### Python string primitives

Python `str.strip`, `str.lower`, `str.upper`, membership (`in`) and slicing
are modelled structurally on the character list underlying `String`, so that
all definitions evaluate by kernel reduction. -/

/-- Model of Python `str.strip()`: drop leading and trailing whitespace. -/
def pyStrip (s : String) : String :=
  ⟨((s.data.dropWhile Char.isWhitespace).reverse.dropWhile Char.isWhitespace).reverse⟩

/-- Model of Python `str.lower()` (ASCII case folding, as used by the scripts). -/
def pyLower (s : String) : String := ⟨s.data.map Char.toLower⟩

/-- Model of Python `str.upper()` (ASCII case folding, as used by the scripts). -/
def pyUpper (s : String) : String := ⟨s.data.map Char.toUpper⟩

/-- Model of Python `s[:n]`: the first `n` characters. -/
def pyTake (n : Nat) (s : String) : String := ⟨s.data.take n⟩

/-- Auxiliary: does `needle` occur as a contiguous sublist of `hay`? -/
def charsContain (needle : List Char) : List Char → Bool
  | [] => needle.isEmpty
  | c :: rest => needle.isPrefixOf (c :: rest) || charsContain needle rest

/-- Model of Python `needle in hay` for strings (substring test). -/
def pyContains (hay needle : String) : Bool := charsContain needle.data hay.data

/-! ### Ordinal string comparison

Python compares strings lexicographically by code point; every `sorted`
call in the scripts relies on it. We embed that order directly on the
character lists so that it evaluates by kernel reduction. -/

/-- Lexicographic (ordinal) comparison of character lists, as Python
compares strings. -/
def charsLe : List Char → List Char → Bool
  | [], _ => true
  | _ :: _, [] => false
  | a :: as, b :: bs => a < b || (a = b && charsLe as bs)

/-- Python string `<=`: ordinal lexicographic comparison. -/
def strLe (a b : String) : Prop := charsLe a.data b.data = true

instance : DecidableRel strLe := fun a b => by unfold strLe; infer_instance

theorem charsLe_total (as bs : List Char) : charsLe as bs = true ∨ charsLe bs as = true := by
  induction as generalizing bs with
  | nil => left; rfl
  | cons a as ih =>
      cases bs with
      | nil => right; rfl
      | cons b bs =>
          rcases lt_trichotomy a b with h | h | h
          · left; simp [charsLe, h]
          · subst h
            rcases ih bs with h2 | h2
            · left; simp [charsLe, h2]
            · right; simp [charsLe, h2]
          · right; simp [charsLe, h]

theorem charsLe_trans {as bs cs : List Char}
    (h1 : charsLe as bs = true) (h2 : charsLe bs cs = true) : charsLe as cs = true := by
  induction as generalizing bs cs with
  | nil => rfl
  | cons a as ih =>
      cases bs with
      | nil => simp [charsLe] at h1
      | cons b bs =>
          cases cs with
          | nil => simp [charsLe] at h2
          | cons c cs =>
              simp only [charsLe, Bool.or_eq_true, Bool.and_eq_true, decide_eq_true_eq] at h1 h2 ⊢
              rcases h1 with h1 | ⟨rfl, h1⟩
              · rcases h2 with h2 | ⟨rfl, h2⟩
                · exact Or.inl (lt_trans h1 h2)
                · exact Or.inl h1
              · rcases h2 with h2 | ⟨rfl, h2⟩
                · exact Or.inl h2
                · exact Or.inr ⟨rfl, ih h1 h2⟩

theorem charsLe_antisymm {as bs : List Char}
    (h1 : charsLe as bs = true) (h2 : charsLe bs as = true) : as = bs := by
  induction as generalizing bs with
  | nil =>
      cases bs with
      | nil => rfl
      | cons b bs => simp [charsLe] at h2
  | cons a as ih =>
      cases bs with
      | nil => simp [charsLe] at h1
      | cons b bs =>
          simp only [charsLe, Bool.or_eq_true, Bool.and_eq_true, decide_eq_true_eq] at h1 h2
          rcases h1 with h1 | ⟨rfl, h1⟩
          · rcases h2 with h2 | ⟨heq, h2⟩
            · exact absurd (lt_trans h1 h2) (lt_irrefl a)
            · exact absurd (heq ▸ h1) (lt_irrefl b)
          · rcases h2 with h2 | ⟨heq, h2⟩
            · exact absurd h2 (lt_irrefl a)
            · rw [ih h1 h2]

instance : IsTotal String strLe :=
  ⟨fun a b => charsLe_total a.data b.data⟩

instance : IsTrans String strLe :=
  ⟨fun _ _ _ h1 h2 => charsLe_trans h1 h2⟩

theorem strLe_antisymm {a b : String} (h1 : strLe a b) (h2 : strLe b a) : a = b := by
  cases a; cases b
  exact congrArg String.mk (charsLe_antisymm h1 h2)

theorem strLe_refl (a : String) : strLe a a := by
  rcases charsLe_total a.data a.data with h | h <;> exact h

/-- Strict ordinal string order, for stating strict alphabetical claims. -/
def strLt (a b : String) : Prop := strLe a b ∧ a ≠ b

/-! ### Records

A CSV row as produced by `csv_to_dictionary`: the four field names the
scripts consult, each possibly absent. `row.get(f)` is the field itself;
`row.get(f, '')` is `(·.getD "")`. -/

/-- A field-keyed input record with the four fields the scripts read. -/
structure Record where
  location : Option String
  payor : Option String
  patient : Option String
  service : Option String
deriving DecidableEq, Repr

/-- Field normalisation shared by every script: `None`, empty, and
whitespace-only values are absent; otherwise the stripped value.
This is the meaning of Python `not v or not v.strip()` guards. -/
def normalize (v : Option String) : Option String :=
  match v with
  | none => none
  | some s => let t := pyStrip s; if t = "" then none else some t

/-- Model of `row.get(f, '').strip()`: missing fields read as the empty string. -/
def fieldOrEmpty (v : Option String) : String := pyStrip (v.getD "")

/-! ### Dict-of-sets association lists

Python dicts preserve insertion order; we model `dict[str, set[str]]` as an
association list updated in place. -/

/-- Lookup with a default, modelling `d.get(k, default)`. -/
def lookupD {α : Type} (m : List (String × α)) (k : String) (d : α) : α :=
  match m with
  | [] => d
  | (k₀, v) :: rest => if k₀ = k then v else lookupD rest k d

/-- Model of `d.setdefault(k, set()).add(p)`: insert `p` into the set at key
`k`, creating the key at the end (insertion order) if new. -/
def alInsert (m : List (String × Finset String)) (k p : String) :
    List (String × Finset String) :=
  match m with
  | [] => [(k, {p})]
  | (k₀, s) :: rest =>
      if k₀ = k then (k₀, insert p s) :: rest else (k₀, s) :: alInsert rest k p

theorem lookupD_alInsert (m : List (String × Finset String)) (k p q : String) :
    lookupD (alInsert m k p) q ∅ =
      if k = q then insert p (lookupD m q ∅) else lookupD m q ∅ := by
  induction m with
  | nil =>
      by_cases h : k = q <;> simp [alInsert, lookupD, h]
  | cons hd tl ih =>
      obtain ⟨k₀, s⟩ := hd
      by_cases h0 : k₀ = k
      · subst h0
        by_cases hq : k₀ = q
        · subst hq; simp [alInsert, lookupD]
        · simp [alInsert, lookupD, hq]
      · by_cases hq : k₀ = q
        · subst hq
          have : ¬ k = k₀ := fun h => h0 h.symm
          simp [alInsert, lookupD, h0, this]
        · simp [alInsert, lookupD, h0, hq, ih]

/-! ### clientByLocation.py: process_client_by_location -/

/-- One iteration of the loop in `process_client_by_location`
(clientByLocation.py lines 42-58): skip the row unless both `Location` and
`Patient` are present and non-blank, otherwise add the stripped patient to
the set of the stripped location. -/
def cblStep (m : List (String × Finset String)) (r : Record) :
    List (String × Finset String) :=
  match normalize r.location, normalize r.patient with
  | some loc, some pat => alInsert m loc pat
  | _, _ => m

/-- The dict of sets built by `process_client_by_location`
(clientByLocation.py lines 31-58), before the sets are converted to counts. -/
def process_client_by_location (data : List Record) :
    List (String × Finset String) :=
  data.foldl cblStep []

/-- The count reported for a location: `len` of its patient set
(clientByLocation.py line 61); an absent key counts as the empty set. -/
def locationCount (data : List Record) (loc : String) : Nat :=
  (lookupD (process_client_by_location data) loc ∅).card

/-- Stated from the claim, for comparison with the source: the distinct
trimmed `Patient` identifiers observed on rows whose trimmed `Location`
equals `loc`. -/
def observedPatients (data : List Record) (loc : String) : Finset String :=
  (data.filterMap (fun r =>
    match normalize r.location, normalize r.patient with
    | some l, some p => if l = loc then some p else none
    | _, _ => none)).toFinset

theorem mem_lookupD_foldl_cbl (data : List Record)
    (m : List (String × Finset String)) (loc q : String) :
    q ∈ lookupD (data.foldl cblStep m) loc ∅ ↔
      q ∈ lookupD m loc ∅ ∨
        ∃ r ∈ data, normalize r.location = some loc ∧ normalize r.patient = some q := by
  induction data generalizing m with
  | nil => simp
  | cons r rest ih =>
      simp only [List.foldl_cons, ih, List.mem_cons]
      constructor
      · rintro (hm | hr)
        · unfold cblStep at hm
          rcases hl : normalize r.location with _ | l <;>
            rcases hp : normalize r.patient with _ | p <;>
            simp only [hl, hp] at hm
          · exact Or.inl hm
          · exact Or.inl hm
          · exact Or.inl hm
          · rw [lookupD_alInsert] at hm
            by_cases he : l = loc
            · subst he
              rw [if_pos rfl] at hm
              rcases Finset.mem_insert.mp hm with rfl | hm
              · exact Or.inr ⟨r, Or.inl rfl, hl, hp⟩
              · exact Or.inl hm
            · rw [if_neg he] at hm
              exact Or.inl hm
        · obtain ⟨r₀, hr₀, h1, h2⟩ := hr
          exact Or.inr ⟨r₀, Or.inr hr₀, h1, h2⟩
      · rintro (hm | ⟨r₀, (rfl | hr₀), h1, h2⟩)
        · left
          unfold cblStep
          rcases hl : normalize r.location with _ | l <;>
            rcases hp : normalize r.patient with _ | p <;>
            simp only [hl, hp]
          · exact hm
          · exact hm
          · exact hm
          · rw [lookupD_alInsert]
            by_cases he : l = loc
            · simp only [if_pos he, Finset.mem_insert]
              exact Or.inr hm
            · rwa [if_neg he]
        · left
          unfold cblStep
          rw [h1, h2, lookupD_alInsert, if_pos rfl]
          exact Finset.mem_insert_self q _
        · exact Or.inr ⟨r₀, hr₀, h1, h2⟩

theorem lookupD_process_cbl_eq_observed (data : List Record) (loc : String) :
    lookupD (process_client_by_location data) loc ∅ = observedPatients data loc := by
  ext q
  rw [process_client_by_location, mem_lookupD_foldl_cbl]
  simp only [observedPatients, List.mem_toFinset, List.mem_filterMap, lookupD,
    Finset.not_mem_empty, false_or]
  constructor
  · rintro ⟨r, hr, h1, h2⟩
    refine ⟨r, hr, ?_⟩
    rw [h1, h2]
    simp
  · rintro ⟨r, hr, hmatch⟩
    rcases hl : normalize r.location with _ | l <;>
      rcases hp : normalize r.patient with _ | p <;>
      rw [hl, hp] at hmatch
    · exact absurd hmatch (by simp)
    · exact absurd hmatch (by simp)
    · exact absurd hmatch (by simp)
    · simp only [] at hmatch
      by_cases he : l = loc
      · subst he
        rw [if_pos rfl, Option.some_inj] at hmatch
        exact ⟨r, hr, hl, by rw [hp, hmatch]⟩
      · rw [if_neg he] at hmatch
        exact absurd hmatch (by simp)

/-! ### clientByLocationAndPayer.py: process_client_by_location_and_payer -/

/-- Model of the nested dict update in `process_client_by_location_and_payer`
(clientByLocationAndPayer.py lines 56-63): create the location entry if
needed, then insert the patient into the payor set. -/
def alInsert2 (m : List (String × List (String × Finset String)))
    (loc py pat : String) : List (String × List (String × Finset String)) :=
  match m with
  | [] => [(loc, [(py, {pat})])]
  | (k, inner) :: rest =>
      if k = loc then (k, alInsert inner py pat) :: rest
      else (k, inner) :: alInsert2 rest loc py pat

/-- One iteration of the loop in `process_client_by_location_and_payer`
(clientByLocationAndPayer.py lines 42-63): skip unless `Location`, `Payor`
and `Patient` are all present and non-blank. -/
def clpStep (m : List (String × List (String × Finset String))) (r : Record) :
    List (String × List (String × Finset String)) :=
  match normalize r.location, normalize r.payor, normalize r.patient with
  | some loc, some py, some pat => alInsert2 m loc py pat
  | _, _, _ => m

/-- The nested dict built by `process_client_by_location_and_payer`
(clientByLocationAndPayer.py lines 30-65). -/
def process_client_by_location_and_payer (data : List Record) :
    List (String × List (String × Finset String)) :=
  data.foldl clpStep []

/-- The patient set of one (location, payor) cell;
`location_payer_data[location].get(payor, set())` in the source. -/
def cellSet (m : List (String × List (String × Finset String)))
    (loc py : String) : Finset String :=
  lookupD (lookupD m loc []) py ∅

/-- The count of one (location, payor) cell, as `generate_summary_report`
computes it (clientByLocationAndPayer.py line 201). -/
def cellCount (data : List Record) (loc py : String) : Nat :=
  (cellSet (process_client_by_location_and_payer data) loc py).card

/-- Stated from the claim, for comparison with the source: the distinct
trimmed patients observed on rows carrying this (location, payor) pair. -/
def observedPatients2 (data : List Record) (loc py : String) : Finset String :=
  (data.filterMap (fun r =>
    match normalize r.location, normalize r.payor, normalize r.patient with
    | some l, some p, some q => if l = loc ∧ p = py then some q else none
    | _, _, _ => none)).toFinset

theorem lookupD_alInsert2 (m : List (String × List (String × Finset String)))
    (loc py pat l : String) :
    lookupD (alInsert2 m loc py pat) l [] =
      if loc = l then alInsert (lookupD m l []) py pat else lookupD m l [] := by
  induction m with
  | nil => by_cases h : loc = l <;> simp [alInsert2, alInsert, lookupD, h]
  | cons hd tl ih =>
      obtain ⟨k, inner⟩ := hd
      by_cases h0 : k = loc
      · subst h0
        by_cases hq : k = l
        · subst hq; simp [alInsert2, lookupD]
        · simp [alInsert2, lookupD, hq]
      · by_cases hq : k = l
        · subst hq
          have hne : ¬ loc = k := fun h => h0 h.symm
          simp [alInsert2, lookupD, h0, hne]
        · simp [alInsert2, lookupD, h0, hq, ih]

theorem cellSet_alInsert2 (m : List (String × List (String × Finset String)))
    (loc py pat l q : String) :
    cellSet (alInsert2 m loc py pat) l q =
      if loc = l ∧ py = q then insert pat (cellSet m l q) else cellSet m l q := by
  unfold cellSet
  rw [lookupD_alInsert2]
  by_cases hl : loc = l
  · rw [if_pos hl, lookupD_alInsert]
    by_cases hq : py = q
    · rw [if_pos hq, if_pos ⟨hl, hq⟩]
    · rw [if_neg hq, if_neg (fun h => hq h.2)]
  · rw [if_neg hl, if_neg (fun h => hl h.1)]

theorem mem_cellSet_foldl_clp (data : List Record)
    (m : List (String × List (String × Finset String))) (loc py q : String) :
    q ∈ cellSet (data.foldl clpStep m) loc py ↔
      q ∈ cellSet m loc py ∨
        ∃ r ∈ data, normalize r.location = some loc ∧ normalize r.payor = some py ∧
          normalize r.patient = some q := by
  induction data generalizing m with
  | nil => simp
  | cons r rest ih =>
      simp only [List.foldl_cons, ih, List.mem_cons]
      constructor
      · rintro (hm | hr)
        · unfold clpStep at hm
          rcases hl : normalize r.location with _ | l <;>
            rcases hy : normalize r.payor with _ | y <;>
            rcases hp : normalize r.patient with _ | p <;>
            simp only [hl, hy, hp] at hm
          all_goals try exact Or.inl hm
          rw [cellSet_alInsert2] at hm
          by_cases he : l = loc ∧ y = py
          · rw [if_pos he] at hm
            rcases Finset.mem_insert.mp hm with rfl | hm
            · exact Or.inr ⟨r, Or.inl rfl, he.1 ▸ hl, he.2 ▸ hy, hp⟩
            · exact Or.inl hm
          · rw [if_neg he] at hm
            exact Or.inl hm
        · obtain ⟨r₀, hr₀, h1, h2, h3⟩ := hr
          exact Or.inr ⟨r₀, Or.inr hr₀, h1, h2, h3⟩
      · rintro (hm | ⟨r₀, (rfl | hr₀), h1, h2, h3⟩)
        · left
          unfold clpStep
          rcases hl : normalize r.location with _ | l <;>
            rcases hy : normalize r.payor with _ | y <;>
            rcases hp : normalize r.patient with _ | p <;>
            simp only [hl, hy, hp]
          all_goals try exact hm
          rw [cellSet_alInsert2]
          by_cases he : l = loc ∧ y = py
          · rw [if_pos he]
            exact Finset.mem_insert_of_mem hm
          · rwa [if_neg he]
        · left
          unfold clpStep
          rw [h1, h2, h3, cellSet_alInsert2, if_pos ⟨rfl, rfl⟩]
          exact Finset.mem_insert_self q _
        · exact Or.inr ⟨r₀, hr₀, h1, h2, h3⟩

theorem cellSet_process_clp_eq_observed (data : List Record) (loc py : String) :
    cellSet (process_client_by_location_and_payer data) loc py =
      observedPatients2 data loc py := by
  ext q
  rw [process_client_by_location_and_payer, mem_cellSet_foldl_clp]
  simp only [observedPatients2, List.mem_toFinset, List.mem_filterMap, cellSet, lookupD,
    Finset.not_mem_empty, false_or]
  constructor
  · rintro ⟨r, hr, h1, h2, h3⟩
    refine ⟨r, hr, ?_⟩
    rw [h1, h2, h3]
    simp
  · rintro ⟨r, hr, hmatch⟩
    rcases hl : normalize r.location with _ | l <;>
      rcases hy : normalize r.payor with _ | y <;>
      rcases hp : normalize r.patient with _ | p <;>
      rw [hl, hy, hp] at hmatch
    · exact absurd hmatch (by simp)
    · exact absurd hmatch (by simp)
    · exact absurd hmatch (by simp)
    · exact absurd hmatch (by simp)
    · exact absurd hmatch (by simp)
    · exact absurd hmatch (by simp)
    · exact absurd hmatch (by simp)
    · simp only [] at hmatch
      by_cases he : l = loc ∧ y = py
      · rw [if_pos he, Option.some_inj] at hmatch
        exact ⟨r, hr, he.1 ▸ hl, he.2 ▸ hy, by rw [hp, hmatch]⟩
      · rw [if_neg he] at hmatch
        exact absurd hmatch (by simp)

/-- Rows skipped by `process_client_by_location` change nothing. -/
theorem cblStep_skip (m : List (String × Finset String)) (r : Record)
    (h : normalize r.location = none ∨ normalize r.patient = none) :
    cblStep m r = m := by
  unfold cblStep
  rcases hl : normalize r.location with _ | l <;>
    rcases hp : normalize r.patient with _ | p <;> simp only []
  rw [hl, hp] at h
  rcases h with h | h <;> exact absurd h (by simp)

/-- Rows skipped by `process_client_by_location_and_payer` change nothing. -/
theorem clpStep_skip (m : List (String × List (String × Finset String))) (r : Record)
    (h : normalize r.location = none ∨ normalize r.payor = none ∨
      normalize r.patient = none) :
    clpStep m r = m := by
  unfold clpStep
  rcases hl : normalize r.location with _ | l <;>
    rcases hy : normalize r.payor with _ | y <;>
    rcases hp : normalize r.patient with _ | p <;> simp only []
  rw [hl, hy, hp] at h
  rcases h with h | h | h <;> exact absurd h (by simp)

theorem observedPatients_replicate (n : Nat) (r : Record) (loc pat : String)
    (hn : 1 ≤ n) (hl : normalize r.location = some loc)
    (hp : normalize r.patient = some pat) :
    observedPatients (List.replicate n r) loc = {pat} := by
  ext q
  simp only [observedPatients, List.mem_toFinset, List.mem_filterMap,
    List.mem_replicate, Finset.mem_singleton]
  constructor
  · rintro ⟨r₀, ⟨hn0, rfl⟩, hmatch⟩
    rw [hl, hp] at hmatch
    simp at hmatch
    exact hmatch.symm
  · rintro rfl
    refine ⟨r, ⟨by omega, rfl⟩, ?_⟩
    rw [hl, hp]
    simp

/-- C1. For every input sequence and both grouping dimensions (location, and
location × payor), the aggregator's count for a group key is the number of
distinct trimmed `Patient` values observed under that key; a row whose
dimension field or `Patient` field is missing or blank after trimming is
skipped entirely; and N duplicate rows for the same trimmed patient under a
key contribute a count of 1, not N. -/
theorem claim1_grouping_dedup :
    (∀ data loc, locationCount data loc = (observedPatients data loc).card)
    ∧ (∀ data loc py, cellCount data loc py = (observedPatients2 data loc py).card)
    ∧ (∀ pre post r, normalize r.location = none ∨ normalize r.patient = none →
        process_client_by_location (pre ++ r :: post) =
          process_client_by_location (pre ++ post))
    ∧ (∀ pre post r, normalize r.location = none ∨ normalize r.payor = none ∨
          normalize r.patient = none →
        process_client_by_location_and_payer (pre ++ r :: post) =
          process_client_by_location_and_payer (pre ++ post))
    ∧ (∀ n r loc pat, 1 ≤ n → normalize r.location = some loc →
        normalize r.patient = some pat →
        locationCount (List.replicate n r) loc = 1) := by
  refine ⟨?_, ?_, ?_, ?_, ?_⟩
  · intro data loc
    rw [locationCount, lookupD_process_cbl_eq_observed]
  · intro data loc py
    rw [cellCount, cellSet_process_clp_eq_observed]
  · intro pre post r h
    unfold process_client_by_location
    rw [List.foldl_append, List.foldl_append, List.foldl_cons, cblStep_skip _ _ h]
  · intro pre post r h
    unfold process_client_by_location_and_payer
    rw [List.foldl_append, List.foldl_append, List.foldl_cons, clpStep_skip _ _ h]
  · intro n r loc pat hn hl hp
    rw [locationCount, lookupD_process_cbl_eq_observed,
      observedPatients_replicate n r loc pat hn hl hp, Finset.card_singleton]

/-- Witness for C1: three duplicate rows for the same patient at the same
location count as one; a row with a blank location is skipped entirely. -/
theorem claim1_grouping_dedup_witness :
    ((1 : Nat) ≤ 3 ∧
      locationCount
        (List.replicate 3 ⟨some "OKC", none, some "Smith, A", none⟩) "OKC" = 1)
    ∧ process_client_by_location [⟨some "  ", some "P", some "Q", none⟩] =
        process_client_by_location [] := by
  refine ⟨⟨by decide, ?_⟩, ?_⟩
  · exact claim1_grouping_dedup.2.2.2.2 3 ⟨some "OKC", none, some "Smith, A", none⟩
      "OKC" "Smith, A" (by decide) (by decide) (by decide)
  · exact claim1_grouping_dedup.2.2.1 [] [] ⟨some "  ", some "P", some "Q", none⟩
      (Or.inl (by decide))

/-! ### clientByLocation.py: analyze_data_gaps -/

/-- The mutable state of the loop in `analyze_data_gaps`
(clientByLocation.py lines 166-186): two distinct-patient sets for the
partial partitions and row counters for the two full partitions.
`total_records = len(data)` is taken before the loop. -/
structure GapsSummary where
  total_records : Nat
  has_both : Nat
  has_neither : Nat
  payor_no_location : Finset String
  location_no_payor : Finset String
deriving DecidableEq

/-- One iteration of the classification loop in `analyze_data_gaps`
(clientByLocation.py lines 172-186), with `row.get(f, '').strip()` access. -/
def gapsStep (s : GapsSummary) (r : Record) : GapsSummary :=
  if fieldOrEmpty r.payor ≠ "" ∧ fieldOrEmpty r.location = "" then
    if fieldOrEmpty r.patient ≠ "" then
      { s with payor_no_location := insert (fieldOrEmpty r.patient) s.payor_no_location }
    else s
  else if fieldOrEmpty r.location ≠ "" ∧ fieldOrEmpty r.payor = "" then
    if fieldOrEmpty r.patient ≠ "" then
      { s with location_no_payor := insert (fieldOrEmpty r.patient) s.location_no_payor }
    else s
  else if fieldOrEmpty r.location ≠ "" ∧ fieldOrEmpty r.payor ≠ "" then
    { s with has_both := s.has_both + 1 }
  else
    { s with has_neither := s.has_neither + 1 }

/-- The summary built by `analyze_data_gaps` (clientByLocation.py
lines 157-201); the reported counts for the partial partitions are the
cardinalities of the two patient sets. -/
def analyze_data_gaps (data : List Record) : GapsSummary :=
  data.foldl gapsStep ⟨data.length, 0, 0, ∅, ∅⟩

/-- Percentage computation used for every reported count
(clientByLocation.py lines 189-198): `count / total * 100` guarded by
`total > 0`, with floats modelled as exact rationals. -/
def pctOf (count total : Nat) : ℚ :=
  if 0 < total then (count : ℚ) / total * 100 else 0

/-- The `has_both_pct` entry of the summary (clientByLocation.py line 192). -/
def has_both_pct (g : GapsSummary) : ℚ := pctOf g.has_both g.total_records

/-- The `payor_no_location_pct` entry (clientByLocation.py line 194). -/
def payor_no_location_pct (g : GapsSummary) : ℚ :=
  pctOf g.payor_no_location.card g.total_records

/-- The `location_no_payor_pct` entry (clientByLocation.py line 196). -/
def location_no_payor_pct (g : GapsSummary) : ℚ :=
  pctOf g.location_no_payor.card g.total_records

/-- The `has_neither_pct` entry (clientByLocation.py line 198). -/
def has_neither_pct (g : GapsSummary) : ℚ := pctOf g.has_neither g.total_records

/-- A row of the Payor-without-Location partition (the first branch guard). -/
def rowPayorOnly (r : Record) : Prop :=
  fieldOrEmpty r.payor ≠ "" ∧ fieldOrEmpty r.location = ""

/-- A row of the Location-without-Payor partition (the second branch guard). -/
def rowLocationOnly (r : Record) : Prop :=
  fieldOrEmpty r.location ≠ "" ∧ fieldOrEmpty r.payor = ""

/-- A row of the both-present partition (the third branch guard). -/
def rowBoth (r : Record) : Prop :=
  fieldOrEmpty r.location ≠ "" ∧ fieldOrEmpty r.payor ≠ ""

/-- A row of the neither-present partition (the final branch). -/
def rowNeither (r : Record) : Prop :=
  fieldOrEmpty r.location = "" ∧ fieldOrEmpty r.payor = ""

instance : DecidablePred rowPayorOnly := fun r => by unfold rowPayorOnly; infer_instance
instance : DecidablePred rowLocationOnly := fun r => by unfold rowLocationOnly; infer_instance
instance : DecidablePred rowBoth := fun r => by unfold rowBoth; infer_instance
instance : DecidablePred rowNeither := fun r => by unfold rowNeither; infer_instance

/-- Number of rows in the Payor-without-Location partition. -/
def payorOnlyRows (data : List Record) : Nat :=
  data.countP (fun r => decide (rowPayorOnly r))

/-- Number of rows in the Location-without-Payor partition. -/
def locationOnlyRows (data : List Record) : Nat :=
  data.countP (fun r => decide (rowLocationOnly r))

/-- Number of rows in the both-present partition. -/
def bothRows (data : List Record) : Nat :=
  data.countP (fun r => decide (rowBoth r))

/-- Number of rows in the neither-present partition. -/
def neitherRows (data : List Record) : Nat :=
  data.countP (fun r => decide (rowNeither r))

theorem gapsStep_total_records (s : GapsSummary) (r : Record) :
    (gapsStep s r).total_records = s.total_records := by
  unfold gapsStep
  split_ifs <;> rfl

theorem gapsStep_has_both (s : GapsSummary) (r : Record) :
    (gapsStep s r).has_both = s.has_both + (if rowBoth r then 1 else 0) := by
  unfold gapsStep rowBoth
  split_ifs <;> first | rfl | (exfalso; tauto)

theorem gapsStep_has_neither (s : GapsSummary) (r : Record) :
    (gapsStep s r).has_neither = s.has_neither + (if rowNeither r then 1 else 0) := by
  unfold gapsStep rowNeither
  split_ifs <;> first | rfl | (exfalso; tauto)

theorem gapsStep_payor_card_le (s : GapsSummary) (r : Record) :
    (gapsStep s r).payor_no_location.card ≤
      s.payor_no_location.card + (if rowPayorOnly r then 1 else 0) := by
  unfold gapsStep rowPayorOnly
  split_ifs <;>
    first
      | (exfalso; tauto)
      | (exact le_trans (Finset.card_insert_le _ _) (by omega))
      | omega
      | simp

theorem gapsStep_location_card_le (s : GapsSummary) (r : Record) :
    (gapsStep s r).location_no_payor.card ≤
      s.location_no_payor.card + (if rowLocationOnly r then 1 else 0) := by
  unfold gapsStep rowLocationOnly
  split_ifs <;>
    first
      | (exfalso; tauto)
      | (exact le_trans (Finset.card_insert_le _ _) (by omega))
      | omega
      | simp

theorem foldl_gaps_total (data : List Record) (s : GapsSummary) :
    (data.foldl gapsStep s).total_records = s.total_records := by
  induction data generalizing s with
  | nil => rfl
  | cons r rest ih => rw [List.foldl_cons, ih, gapsStep_total_records]

theorem foldl_gaps_has_both (data : List Record) (s : GapsSummary) :
    (data.foldl gapsStep s).has_both = s.has_both + bothRows data := by
  induction data generalizing s with
  | nil => simp [bothRows]
  | cons r rest ih =>
      rw [List.foldl_cons, ih, gapsStep_has_both]
      simp only [bothRows, List.countP_cons, decide_eq_true_eq]
      by_cases hb : rowBoth r <;> simp [hb] <;> omega

theorem foldl_gaps_has_neither (data : List Record) (s : GapsSummary) :
    (data.foldl gapsStep s).has_neither = s.has_neither + neitherRows data := by
  induction data generalizing s with
  | nil => simp [neitherRows]
  | cons r rest ih =>
      rw [List.foldl_cons, ih, gapsStep_has_neither]
      simp only [neitherRows, List.countP_cons, decide_eq_true_eq]
      by_cases hb : rowNeither r <;> simp [hb] <;> omega

theorem foldl_gaps_payor_card (data : List Record) (s : GapsSummary) :
    (data.foldl gapsStep s).payor_no_location.card ≤
      s.payor_no_location.card + payorOnlyRows data := by
  induction data generalizing s with
  | nil => simp [payorOnlyRows]
  | cons r rest ih =>
      rw [List.foldl_cons]
      refine le_trans (ih (gapsStep s r)) ?_
      have hstep := gapsStep_payor_card_le s r
      simp only [payorOnlyRows, List.countP_cons, decide_eq_true_eq] at *
      by_cases hb : rowPayorOnly r <;> simp [hb] at hstep ⊢ <;> omega

theorem foldl_gaps_location_card (data : List Record) (s : GapsSummary) :
    (data.foldl gapsStep s).location_no_payor.card ≤
      s.location_no_payor.card + locationOnlyRows data := by
  induction data generalizing s with
  | nil => simp [locationOnlyRows]
  | cons r rest ih =>
      rw [List.foldl_cons]
      refine le_trans (ih (gapsStep s r)) ?_
      have hstep := gapsStep_location_card_le s r
      simp only [locationOnlyRows, List.countP_cons, decide_eq_true_eq] at *
      by_cases hb : rowLocationOnly r <;> simp [hb] at hstep ⊢ <;> omega

/-- A record falls in exactly one of the four presence partitions. -/
theorem partition_ifs (r : Record) :
    (if rowBoth r then (1 : Nat) else 0) + (if rowPayorOnly r then 1 else 0)
      + (if rowLocationOnly r then 1 else 0) + (if rowNeither r then 1 else 0) = 1 := by
  unfold rowBoth rowPayorOnly rowLocationOnly rowNeither
  by_cases hl : fieldOrEmpty r.location = "" <;>
    by_cases hp : fieldOrEmpty r.payor = "" <;>
    simp [hl, hp]

/-- Consequently the four row-partition counts sum to the number of records. -/
theorem partition_rows (data : List Record) :
    bothRows data + payorOnlyRows data + locationOnlyRows data + neitherRows data
      = data.length := by
  induction data with
  | nil => rfl
  | cons r rest ih =>
      have hB : bothRows (r :: rest) = bothRows rest + (if rowBoth r then 1 else 0) := by
        simp [bothRows, List.countP_cons]
      have hP : payorOnlyRows (r :: rest)
          = payorOnlyRows rest + (if rowPayorOnly r then 1 else 0) := by
        simp [payorOnlyRows, List.countP_cons]
      have hL : locationOnlyRows (r :: rest)
          = locationOnlyRows rest + (if rowLocationOnly r then 1 else 0) := by
        simp [locationOnlyRows, List.countP_cons]
      have hN : neitherRows (r :: rest)
          = neitherRows rest + (if rowNeither r then 1 else 0) := by
        simp [neitherRows, List.countP_cons]
      have hone := partition_ifs r
      rw [hB, hP, hL, hN, List.length_cons]
      omega

/-- C2 counterexample: a single row whose `Payor` is present but whose
`Location` and `Patient` are absent lands in the Payor-without-Location
partition, yet the count the analyzer reports for that partition is a
distinct-patient count, so the four reported counts sum to 0 while the
total record count is 1. -/
theorem claim2_counterexample :
    (analyze_data_gaps [⟨none, some "P", none, none⟩]).has_both
      + (analyze_data_gaps [⟨none, some "P", none, none⟩]).payor_no_location.card
      + (analyze_data_gaps [⟨none, some "P", none, none⟩]).location_no_payor.card
      + (analyze_data_gaps [⟨none, some "P", none, none⟩]).has_neither = 0
    ∧ (analyze_data_gaps [⟨none, some "P", none, none⟩]).total_records = 1 := by
  constructor <;> decide

/-- C2 as amended: the four underlying row partitions always sum to the
total record count, and the analyzer reports the row counts for the
both/neither partitions but distinct-patient counts for the two partial
partitions; those are bounded by the partition row counts, so the sum of
the four reported counts is at most (not always equal to) the total. -/
theorem claim2_amended (data : List Record) :
    bothRows data + payorOnlyRows data + locationOnlyRows data + neitherRows data
        = (analyze_data_gaps data).total_records
    ∧ (analyze_data_gaps data).has_both = bothRows data
    ∧ (analyze_data_gaps data).has_neither = neitherRows data
    ∧ (analyze_data_gaps data).payor_no_location.card ≤ payorOnlyRows data
    ∧ (analyze_data_gaps data).location_no_payor.card ≤ locationOnlyRows data
    ∧ (analyze_data_gaps data).has_both + (analyze_data_gaps data).payor_no_location.card
        + (analyze_data_gaps data).location_no_payor.card
        + (analyze_data_gaps data).has_neither
        ≤ (analyze_data_gaps data).total_records := by
  have ht : (analyze_data_gaps data).total_records = data.length :=
    foldl_gaps_total data _
  have hb : (analyze_data_gaps data).has_both = bothRows data := by
    have := foldl_gaps_has_both data ⟨data.length, 0, 0, ∅, ∅⟩
    simpa [analyze_data_gaps] using this
  have hn : (analyze_data_gaps data).has_neither = neitherRows data := by
    have := foldl_gaps_has_neither data ⟨data.length, 0, 0, ∅, ∅⟩
    simpa [analyze_data_gaps] using this
  have hp : (analyze_data_gaps data).payor_no_location.card ≤ payorOnlyRows data := by
    have := foldl_gaps_payor_card data ⟨data.length, 0, 0, ∅, ∅⟩
    simpa [analyze_data_gaps] using this
  have hl : (analyze_data_gaps data).location_no_payor.card ≤ locationOnlyRows data := by
    have := foldl_gaps_location_card data ⟨data.length, 0, 0, ∅, ∅⟩
    simpa [analyze_data_gaps] using this
  have hsum := partition_rows data
  exact ⟨by omega, hb, hn, hp, hl, by omega⟩

/-- C7 counterexample: two duplicate Payor-present/Location-absent rows for
the same patient. The partition holds 2 rows, so a row-count percentage
would be 100, but the analyzer reports the distinct-patient count (1) over
the total, i.e. 50. -/
theorem claim7_counterexample :
    payor_no_location_pct (analyze_data_gaps
        [⟨none, some "P", some "A", none⟩, ⟨none, some "P", some "A", none⟩]) = 50
    ∧ payorOnlyRows
        [⟨none, some "P", some "A", none⟩, ⟨none, some "P", some "A", none⟩] = 2
    ∧ ((2 : ℚ) / 2 * 100 = 100)
    ∧ (50 : ℚ) ≠ 100 := by
  refine ⟨?_, by decide, by norm_num, by norm_num⟩
  have hg : analyze_data_gaps
      [⟨none, some "P", some "A", none⟩, ⟨none, some "P", some "A", none⟩]
      = ⟨2, 0, 0, {"A"}, ∅⟩ := by decide
  rw [payor_no_location_pct, hg]
  show pctOf 1 2 = 50
  norm_num [pctOf]

/-- The spec example input for the completeness analyzer: one row with
`Location` absent, `Payor` present and a patient, and one row with both
fields present. -/
def gapExampleRows : List Record :=
  [⟨none, some "Medicare", some "A", none⟩,
   ⟨some "OKC", some "Medicare", some "B", none⟩]

/-- C7 as amended: each reported percentage is the reported count (the
distinct-patient count for the two partial partitions, the row count for
both/neither) divided by the total row count times 100; a zero total gives
all-zero percentages with no division fault; and the spec example — whose
payor-only row carries a patient — yields counts 1, 1, 0, 0 and
percentages 50, 50, 0, 0. -/
theorem claim7_amended :
    (∀ data : List Record, (analyze_data_gaps data).total_records = 0 →
      has_both_pct (analyze_data_gaps data) = 0
      ∧ payor_no_location_pct (analyze_data_gaps data) = 0
      ∧ location_no_payor_pct (analyze_data_gaps data) = 0
      ∧ has_neither_pct (analyze_data_gaps data) = 0)
    ∧ ((analyze_data_gaps gapExampleRows).payor_no_location.card = 1
      ∧ (analyze_data_gaps gapExampleRows).has_both = 1
      ∧ (analyze_data_gaps gapExampleRows).location_no_payor.card = 0
      ∧ (analyze_data_gaps gapExampleRows).has_neither = 0
      ∧ payor_no_location_pct (analyze_data_gaps gapExampleRows) = 50
      ∧ has_both_pct (analyze_data_gaps gapExampleRows) = 50
      ∧ location_no_payor_pct (analyze_data_gaps gapExampleRows) = 0
      ∧ has_neither_pct (analyze_data_gaps gapExampleRows) = 0) := by
  constructor
  · intro data h0
    refine ⟨?_, ?_, ?_, ?_⟩ <;>
      simp [has_both_pct, payor_no_location_pct, location_no_payor_pct,
        has_neither_pct, pctOf, h0]
  · have hg : analyze_data_gaps gapExampleRows = ⟨2, 1, 0, {"A"}, ∅⟩ := by decide
    refine ⟨by rw [hg]; decide, by rw [hg], by rw [hg]; decide, by rw [hg],
      ?_, ?_, ?_, ?_⟩
    · rw [payor_no_location_pct, hg]
      show pctOf 1 2 = 50
      norm_num [pctOf]
    · rw [has_both_pct, hg]
      show pctOf 1 2 = 50
      norm_num [pctOf]
    · rw [location_no_payor_pct, hg]
      show pctOf 0 2 = 0
      norm_num [pctOf]
    · rw [has_neither_pct, hg]
      show pctOf 0 2 = 0
      norm_num [pctOf]

/-- Witness for C7 (amended): the zero-total branch instantiated at the
empty input, where every percentage is 0. -/
theorem claim7_amended_witness :
    (analyze_data_gaps []).total_records = 0
    ∧ has_both_pct (analyze_data_gaps []) = 0
    ∧ payor_no_location_pct (analyze_data_gaps []) = 0
    ∧ location_no_payor_pct (analyze_data_gaps []) = 0
    ∧ has_neither_pct (analyze_data_gaps []) = 0 := by
  have h := claim7_amended.1 [] (by decide)
  exact ⟨by decide, h.1, h.2.1, h.2.2.1, h.2.2.2⟩

/-! ### telemedPercentage.py: process_okc_telemedicine_percentage -/

/-- Per-patient statistics accumulated by
`process_okc_telemedicine_percentage` (telemedPercentage.py lines 48-69).
The stored float `percentage` is derived from these fields after the loop
and is modelled by the function `percentage` below. -/
structure TPStats where
  total_visits : Nat
  telemed_visits : Nat
  payors : Finset String
  services : Finset String
deriving DecidableEq

/-- The per-row update applied to one patient's stats
(telemedPercentage.py lines 57-69): always count the visit; count a
telemedicine visit when the lowered `Service` contains "telemedicine"; track
non-blank payors and services. The four sequential statements touch disjoint
fields, so they are written as one record update. -/
def tpRowUpdate (service payor : String) (st : TPStats) : TPStats :=
  { total_visits := st.total_visits + 1
    telemed_visits := st.telemed_visits +
      (if pyContains (pyLower service) "telemedicine" = true then 1 else 0)
    payors := if payor ≠ "" then insert payor st.payors else st.payors
    services := if service ≠ "" then insert service st.services else st.services }

/-- Model of the dict update `patient_stats[patient]`
(telemedPercentage.py lines 48-58): apply `f` to the existing entry, or to
fresh zero stats appended in insertion order when the patient is new. -/
def updAssoc (m : List (String × TPStats)) (p : String) (f : TPStats → TPStats) :
    List (String × TPStats) :=
  match m with
  | [] => [(p, f ⟨0, 0, ∅, ∅⟩)]
  | (k, v) :: rest => if k = p then (k, f v) :: rest else (k, v) :: updAssoc rest p f

/-- One iteration of the loop in `process_okc_telemedicine_percentage`
(telemedPercentage.py lines 41-69): only rows whose stripped, uppercased
`Location` equals "OKC" and whose stripped `Patient` is non-blank are
processed. -/
def tpStep (m : List (String × TPStats)) (r : Record) : List (String × TPStats) :=
  if pyUpper (fieldOrEmpty r.location) = "OKC" ∧ fieldOrEmpty r.patient ≠ "" then
    updAssoc m (fieldOrEmpty r.patient)
      (tpRowUpdate (fieldOrEmpty r.service) (fieldOrEmpty r.payor))
  else m

/-- The per-patient statistics dict built by
`process_okc_telemedicine_percentage` (telemedPercentage.py lines 31-76). -/
def process_okc_telemedicine_percentage (data : List Record) :
    List (String × TPStats) :=
  data.foldl tpStep []

/-- The percentage computed after the loop (telemedPercentage.py
lines 72-74): `telemed/total*100` when `total > 0`, else the initial 0.0;
floats are modelled as exact rationals. -/
def percentage (st : TPStats) : ℚ :=
  if 0 < st.total_visits then (st.telemed_visits : ℚ) / st.total_visits * 100 else 0

theorem mem_updAssoc {m : List (String × TPStats)} {p q : String}
    {f : TPStats → TPStats} {st : TPStats} (h : (q, st) ∈ updAssoc m p f) :
    (q, st) ∈ m ∨
      (q = p ∧ (st = f ⟨0, 0, ∅, ∅⟩ ∨ ∃ st₀, (p, st₀) ∈ m ∧ st = f st₀)) := by
  induction m with
  | nil =>
      simp only [updAssoc, List.mem_singleton, Prod.mk.injEq] at h
      exact Or.inr ⟨h.1, Or.inl h.2⟩
  | cons hd rest ih =>
      obtain ⟨k, v⟩ := hd
      unfold updAssoc at h
      by_cases hk : k = p
      · rw [if_pos hk] at h
        rcases List.mem_cons.mp h with heq | hm
        · obtain ⟨hq, hst⟩ := Prod.mk.injEq .. ▸ heq
          subst hk
          exact Or.inr ⟨hq, Or.inr ⟨v, List.mem_cons_self _ _, hst⟩⟩
        · exact Or.inl (List.mem_cons_of_mem _ hm)
      · rw [if_neg hk] at h
        rcases List.mem_cons.mp h with heq | hm
        · exact Or.inl (List.mem_cons.mpr (Or.inl heq))
        · rcases ih hm with h1 | ⟨rfl, h2⟩
          · exact Or.inl (List.mem_cons_of_mem _ h1)
          · refine Or.inr ⟨rfl, ?_⟩
            rcases h2 with h2 | ⟨st₀, hst₀, hst⟩
            · exact Or.inl h2
            · exact Or.inr ⟨st₀, List.mem_cons_of_mem _ hst₀, hst⟩

/-- Invariant of the accumulated stats: totals are positive and telemed
counts never exceed totals. -/
def tpInv (m : List (String × TPStats)) : Prop :=
  ∀ p st, (p, st) ∈ m → 1 ≤ st.total_visits ∧ st.telemed_visits ≤ st.total_visits

theorem tpInv_step (m : List (String × TPStats)) (r : Record) (hm : tpInv m) :
    tpInv (tpStep m r) := by
  unfold tpStep
  split_ifs with hc
  · intro p st h
    rcases mem_updAssoc h with h1 | ⟨rfl, h2 | ⟨st₀, hst₀, hst⟩⟩
    · exact hm p st h1
    · subst h2
      unfold tpRowUpdate
      constructor
      · simp
      · split_ifs <;> simp
    · subst hst
      obtain ⟨ht, htm⟩ := hm _ st₀ hst₀
      unfold tpRowUpdate
      constructor
      · simp
      · split_ifs <;> simp <;> omega
  · exact hm

theorem tpInv_process (data : List Record) :
    tpInv (process_okc_telemedicine_percentage data) := by
  unfold process_okc_telemedicine_percentage
  have h : ∀ m, tpInv m → tpInv (data.foldl tpStep m) := by
    induction data with
    | nil => exact fun m hm => hm
    | cons r rest ih =>
        intro m hm
        rw [List.foldl_cons]
        exact ih _ (tpInv_step m r hm)
  exact h [] (by intro p st hst; simp at hst)

/-- C9. Every patient present in the ratio classifier's result has at least
one counted visit (an entity enters the dict only when an in-scope row
references it) and its telemedicine count lies between 0 and its total. -/
theorem claim9_ratio_invariant (data : List Record) (p : String) (st : TPStats)
    (h : (p, st) ∈ process_okc_telemedicine_percentage data) :
    1 ≤ st.total_visits ∧ 0 ≤ st.telemed_visits
      ∧ st.telemed_visits ≤ st.total_visits := by
  obtain ⟨h1, h2⟩ := tpInv_process data p st h
  exact ⟨h1, Nat.zero_le _, h2⟩

/-- Witness for C9: one in-scope OKC telemedicine row produces the patient
with one total visit and one telemedicine visit. -/
theorem claim9_ratio_invariant_witness :
    (("Smith", (⟨1, 1, ∅, {"Telemedicine Visit"}⟩ : TPStats)) ∈
        process_okc_telemedicine_percentage
          [⟨some "OKC", none, some "Smith", some "Telemedicine Visit"⟩])
    ∧ (1 : Nat) ≤ 1 := by
  have hmem : ("Smith", (⟨1, 1, ∅, {"Telemedicine Visit"}⟩ : TPStats)) ∈
      process_okc_telemedicine_percentage
        [⟨some "OKC", none, some "Smith", some "Telemedicine Visit"⟩] := by decide
  exact ⟨hmem, (claim9_ratio_invariant _ _ _ hmem).1⟩

/-- C5. For every patient in the result, percentages and tiers behave as
claimed: all-telemedicine patients score exactly 100 and satisfy the high
predicate, zero-telemedicine patients score exactly 0, and the four tier
predicates of the report (telemedPercentage.py lines 109-112) cover every
patient and are pairwise exclusive. -/
theorem claim5_tier_partition (data : List Record) (p : String) (st : TPStats)
    (h : (p, st) ∈ process_okc_telemedicine_percentage data) :
    (st.telemed_visits = st.total_visits → percentage st = 100 ∧ 75 ≤ percentage st)
    ∧ (st.telemed_visits = 0 → percentage st = 0)
    ∧ (75 ≤ percentage st ∨ (25 ≤ percentage st ∧ percentage st < 75)
        ∨ (0 < percentage st ∧ percentage st < 25) ∨ percentage st = 0)
    ∧ ¬ (75 ≤ percentage st ∧ 25 ≤ percentage st ∧ percentage st < 75)
    ∧ ¬ (75 ≤ percentage st ∧ 0 < percentage st ∧ percentage st < 25)
    ∧ ¬ (75 ≤ percentage st ∧ percentage st = 0)
    ∧ ¬ ((25 ≤ percentage st ∧ percentage st < 75)
        ∧ (0 < percentage st ∧ percentage st < 25))
    ∧ ¬ ((25 ≤ percentage st ∧ percentage st < 75) ∧ percentage st = 0)
    ∧ ¬ ((0 < percentage st ∧ percentage st < 25) ∧ percentage st = 0) := by
  obtain ⟨htot, hle⟩ := tpInv_process data p st h
  have htot0 : (0 : ℚ) < st.total_visits := by
    exact_mod_cast Nat.lt_of_lt_of_le Nat.zero_lt_one htot
  have hpos : 0 < st.total_visits := htot
  have hpct : percentage st = (st.telemed_visits : ℚ) / st.total_visits * 100 := by
    rw [percentage, if_pos hpos]
  have hnonneg : 0 ≤ percentage st := by
    rw [hpct]
    positivity
  refine ⟨?_, ?_, ?_, ?_, ?_, ?_, ?_, ?_, ?_⟩
  · intro heq
    have h100 : percentage st = 100 := by
      rw [hpct, heq, div_self (ne_of_gt htot0), one_mul]
    exact ⟨h100, by rw [h100]; norm_num⟩
  · intro heq
    rw [hpct, heq]
    norm_num
  · by_cases h75 : 75 ≤ percentage st
    · exact Or.inl h75
    · by_cases h25 : 25 ≤ percentage st
      · exact Or.inr (Or.inl ⟨h25, lt_of_not_le h75⟩)
      · by_cases h0 : 0 < percentage st
        · exact Or.inr (Or.inr (Or.inl ⟨h0, lt_of_lt_of_le (lt_of_not_le h25) (by norm_num)⟩))
        · exact Or.inr (Or.inr (Or.inr (le_antisymm (le_of_not_lt h0) hnonneg)))
  · rintro ⟨h1, _, h2⟩; linarith
  · rintro ⟨h1, _, h2⟩; linarith
  · rintro ⟨h1, h2⟩; rw [h2] at h1; linarith
  · rintro ⟨⟨h1, _⟩, _, h2⟩; linarith
  · rintro ⟨⟨h1, _⟩, h2⟩; rw [h2] at h1; linarith
  · rintro ⟨⟨h1, _⟩, h2⟩; rw [h2] at h1; linarith

/-- Witness for C5: the all-telemedicine OKC patient scores exactly 100 and
lands in the high tier. -/
theorem claim5_tier_partition_witness :
    (("Smith", (⟨1, 1, ∅, {"Telemedicine Visit"}⟩ : TPStats)) ∈
        process_okc_telemedicine_percentage
          [⟨some "OKC", none, some "Smith", some "Telemedicine Visit"⟩])
    ∧ percentage ⟨1, 1, ∅, {"Telemedicine Visit"}⟩ = 100
    ∧ 75 ≤ percentage ⟨1, 1, ∅, {"Telemedicine Visit"}⟩ := by
  have hmem : ("Smith", (⟨1, 1, ∅, {"Telemedicine Visit"}⟩ : TPStats)) ∈
      process_okc_telemedicine_percentage
        [⟨some "OKC", none, some "Smith", some "Telemedicine Visit"⟩] := by decide
  obtain ⟨h100, h75⟩ := (claim5_tier_partition _ _ _ hmem).1 rfl
  exact ⟨hmem, h100, h75⟩

/-! ### Report sorting (generate_report, telemedPercentage listing)

The Python `sorted(...)` calls compare key tuples lexicographically; each
comparison is embedded as a total, transitive relation and the stable sort
as `List.insertionSort`, which produces the same list because every key
order used is linear on the distinct dict keys. -/

/-- Comparison used by `sorted(location_count.items())`
(clientByLocation.py line 90 and clientByPayerType.py line 90): Python
orders the (key, count) tuples, i.e. ordinal order on the key with the
count as final tie-break. -/
def itemsLe (a b : String × Nat) : Prop :=
  strLt a.1 b.1 ∨ (a.1 = b.1 ∧ a.2 ≤ b.2)

/-- Comparison used by
`sorted(location_count.items(), key=lambda x: (-x[1], x[0]))`
(clientByLocation.py line 87 and clientByPayerType.py line 87): count
descending, then key ascending. -/
def countDescLe (a b : String × Nat) : Prop :=
  b.2 < a.2 ∨ (a.2 = b.2 ∧ strLe a.1 b.1)

/-- Comparison used by the telemedicine percentage listing
(telemedPercentage.py lines 88-89),
`key=lambda x: (-x[1]['percentage'], -x[1]['telemed_visits'], x[0])`:
percentage descending, then telemed visit count descending, then patient
name ascending. -/
def telemedLe (a b : String × TPStats) : Prop :=
  percentage b.2 < percentage a.2 ∨
    (percentage a.2 = percentage b.2 ∧
      (b.2.telemed_visits < a.2.telemed_visits ∨
        (a.2.telemed_visits = b.2.telemed_visits ∧ strLe a.1 b.1)))

instance : DecidableRel itemsLe := fun a b => by
  unfold itemsLe strLt; infer_instance

instance : DecidableRel countDescLe := fun a b => by
  unfold countDescLe; infer_instance

instance : DecidableRel telemedLe := fun a b => by
  unfold telemedLe; infer_instance

theorem strLe_total (a b : String) : strLe a b ∨ strLe b a :=
  charsLe_total a.data b.data

instance : IsTotal (String × Nat) itemsLe := by
  constructor
  intro a b
  by_cases h : a.1 = b.1
  · rcases Nat.le_total a.2 b.2 with h2 | h2
    · exact Or.inl (Or.inr ⟨h, h2⟩)
    · exact Or.inr (Or.inr ⟨h.symm, h2⟩)
  · rcases strLe_total a.1 b.1 with h1 | h1
    · exact Or.inl (Or.inl ⟨h1, h⟩)
    · exact Or.inr (Or.inl ⟨h1, fun he => h he.symm⟩)

instance : IsTrans (String × Nat) itemsLe := by
  constructor
  rintro a b c (⟨h1, hne⟩ | ⟨heq, h1⟩) (⟨h2, hne2⟩ | ⟨heq2, h2⟩)
  · refine Or.inl ⟨charsLe_trans h1 h2, fun he => ?_⟩
    have h3 : strLe b.1 a.1 := by rw [he]; exact h2
    exact hne (strLe_antisymm h1 h3)
  · exact Or.inl ⟨heq2 ▸ h1, heq2 ▸ hne⟩
  · exact Or.inl ⟨heq.symm ▸ h2, heq.symm ▸ hne2⟩
  · exact Or.inr ⟨heq.trans heq2, le_trans h1 h2⟩

instance : IsTotal (String × Nat) countDescLe := by
  constructor
  intro a b
  rcases lt_trichotomy a.2 b.2 with h | h | h
  · exact Or.inr (Or.inl h)
  · rcases strLe_total a.1 b.1 with h1 | h1
    · exact Or.inl (Or.inr ⟨h, h1⟩)
    · exact Or.inr (Or.inr ⟨h.symm, h1⟩)
  · exact Or.inl (Or.inl h)

instance : IsTrans (String × Nat) countDescLe := by
  constructor
  rintro a b c (h1 | ⟨heq, h1⟩) (h2 | ⟨heq2, h2⟩)
  · exact Or.inl (lt_trans h2 h1)
  · exact Or.inl (heq2 ▸ h1)
  · exact Or.inl (heq ▸ h2)
  · exact Or.inr ⟨heq.trans heq2, charsLe_trans h1 h2⟩

instance : IsTotal (String × TPStats) telemedLe := by
  constructor
  intro a b
  rcases lt_trichotomy (percentage a.2) (percentage b.2) with h | h | h
  · exact Or.inr (Or.inl h)
  · rcases lt_trichotomy a.2.telemed_visits b.2.telemed_visits with h2 | h2 | h2
    · exact Or.inr (Or.inr ⟨h.symm, Or.inl h2⟩)
    · rcases strLe_total a.1 b.1 with h3 | h3
      · exact Or.inl (Or.inr ⟨h, Or.inr ⟨h2, h3⟩⟩)
      · exact Or.inr (Or.inr ⟨h.symm, Or.inr ⟨h2.symm, h3⟩⟩)
    · exact Or.inl (Or.inr ⟨h, Or.inl h2⟩)
  · exact Or.inl (Or.inl h)

instance : IsTrans (String × TPStats) telemedLe := by
  constructor
  intro a b c hab hbc
  rcases hab with h1 | ⟨he1, hab2⟩
  · rcases hbc with h2 | ⟨he2, hbc2⟩
    · exact Or.inl (lt_trans h2 h1)
    · exact Or.inl (he2 ▸ h1)
  · rcases hbc with h2 | ⟨he2, hbc2⟩
    · exact Or.inl (he1.symm ▸ h2)
    · refine Or.inr ⟨he1.trans he2, ?_⟩
      rcases hab2 with hm1 | ⟨hm1, hs1⟩
      · rcases hbc2 with hm2 | ⟨hm2, hs2⟩
        · exact Or.inl (lt_trans hm2 hm1)
        · exact Or.inl (hm2 ▸ hm1)
      · rcases hbc2 with hm2 | ⟨hm2, hs2⟩
        · exact Or.inl (hm1.symm ▸ hm2)
        · exact Or.inr ⟨hm1.trans hm2, charsLe_trans hs1 hs2⟩

/-- The sorting step of `generate_report` (clientByLocation.py lines 84-90,
identically clientByPayerType.py lines 84-90): the exact string 'count'
selects count-descending order, anything else falls through to the
alphabetical branch. -/
def report_sorted_items (sort_by : String) (m : List (String × Nat)) :
    List (String × Nat) :=
  if sort_by = "count" then List.insertionSort countDescLe m
  else List.insertionSort itemsLe m

/-- The sorted patient listing of `generate_telemedicine_percentage_report`
(telemedPercentage.py lines 88-89). -/
def telemed_sorted_patients (m : List (String × TPStats)) :
    List (String × TPStats) :=
  List.insertionSort telemedLe m

/-- C10. For any sort_by string other than the exact 'count' — including
misspelled or unrecognized modes — the one-dimension report generator of
clientByLocation.py and clientByPayerType.py silently produces the
alphabetical ascending ordering (the same list as the default), sorted and
a permutation of the input; no error path exists. -/
theorem claim10_sort_fallback (m : List (String × Nat)) (sort_by : String)
    (h : sort_by ≠ "count") :
    report_sorted_items sort_by m = List.insertionSort itemsLe m
    ∧ report_sorted_items sort_by m = report_sorted_items "location" m
    ∧ List.Sorted itemsLe (report_sorted_items sort_by m)
    ∧ (report_sorted_items sort_by m).Perm m := by
  have he : report_sorted_items sort_by m = List.insertionSort itemsLe m := by
    rw [report_sorted_items, if_neg h]
  have hl : report_sorted_items "location" m = List.insertionSort itemsLe m := by
    rw [report_sorted_items, if_neg (by decide)]
  refine ⟨he, he.trans hl.symm, ?_, ?_⟩
  · rw [he]
    exact List.sorted_insertionSort itemsLe m
  · rw [he]
    exact List.perm_insertionSort itemsLe m

/-- Witness for C10: the misspelled mode 'Count' falls back to the
alphabetical ordering on a concrete two-entry aggregation. -/
theorem claim10_sort_fallback_witness :
    ("Count" : String) ≠ "count"
    ∧ report_sorted_items "Count" [("B", 2), ("A", 1)]
        = report_sorted_items "location" [("B", 2), ("A", 1)]
    ∧ List.Sorted itemsLe (report_sorted_items "Count" [("B", 2), ("A", 1)]) := by
  have h := claim10_sort_fallback [("B", 2), ("A", 1)] "Count" (by decide)
  exact ⟨by decide, h.2.1, h.2.2.1⟩

/-- C3 counterexample: two OKC patients with equal percentages (1/2 and 2/4
both give 50%) but different telemedicine visit counts. The listing places
"B" (2 telemed visits) before "A" (1 telemed visit) even though "A" < "B"
alphabetically: the sort key (telemedPercentage.py line 89) interposes
telemed-visit count between the percentage and the name. -/
theorem claim3_counterexample :
    (telemed_sorted_patients
        [("A", ⟨2, 1, ∅, ∅⟩), ("B", ⟨4, 2, ∅, ∅⟩)]).map Prod.fst = ["B", "A"]
    ∧ percentage ⟨2, 1, ∅, ∅⟩ = percentage ⟨4, 2, ∅, ∅⟩
    ∧ strLt "A" "B" := by
  have hpa : percentage ⟨2, 1, ∅, ∅⟩ = 50 := by norm_num [percentage]
  have hpb : percentage ⟨4, 2, ∅, ∅⟩ = 50 := by norm_num [percentage]
  have hn : ¬ telemedLe ("A", (⟨2, 1, ∅, ∅⟩ : TPStats)) ("B", ⟨4, 2, ∅, ∅⟩) := by
    intro h
    rcases h with h | ⟨heq, h2 | ⟨h3, h4⟩⟩
    · rw [show percentage (("A", (⟨2, 1, ∅, ∅⟩ : TPStats)).2) = 50 from hpa,
        show percentage (("B", (⟨4, 2, ∅, ∅⟩ : TPStats)).2) = 50 from hpb] at h
      exact lt_irrefl _ h
    · exact absurd h2 (by decide)
    · exact absurd h3 (by decide)
  constructor
  · simp [telemed_sorted_patients, List.insertionSort, List.orderedInsert, hn]
  · exact ⟨hpa.trans hpb.symm, ⟨by decide, by decide⟩⟩

/-- C3 as amended: for the one-dimension count-descending reports the
claim holds — entries with equal counts appear in strictly alphabetical
ascending key order with nothing in between; for the telemedicine
percentage listing, entries with equal percentages are ordered by
telemedicine visit count descending first, and alphabetically ascending
only when both the percentage and the telemedicine count are equal. -/
theorem claim3_amended :
    (∀ m : List (String × Nat), (m.map Prod.fst).Nodup →
      List.Pairwise (fun a b => a.2 = b.2 → strLt a.1 b.1)
        (report_sorted_items "count" m))
    ∧ (∀ m : List (String × TPStats), (m.map Prod.fst).Nodup →
      List.Pairwise (fun a b => percentage a.2 = percentage b.2 →
          b.2.telemed_visits ≤ a.2.telemed_visits
          ∧ (a.2.telemed_visits = b.2.telemed_visits → strLt a.1 b.1))
        (telemed_sorted_patients m)) := by
  constructor
  · intro m hnd
    have hs : List.Sorted countDescLe (report_sorted_items "count" m) := by
      show List.Sorted countDescLe (List.insertionSort countDescLe m)
      exact List.sorted_insertionSort countDescLe m
    have hperm : (report_sorted_items "count" m).Perm m := by
      show (List.insertionSort countDescLe m).Perm m
      exact List.perm_insertionSort countDescLe m
    have hndout : ((report_sorted_items "count" m).map Prod.fst).Nodup :=
      ((hperm.map Prod.fst).nodup_iff).mpr hnd
    have hne : List.Pairwise (fun a b : String × Nat => a.1 ≠ b.1)
        (report_sorted_items "count" m) := List.pairwise_map.mp hndout
    refine (hs.and hne).imp ?_
    rintro a b ⟨hr, hn⟩ hcnt
    rcases hr with h | ⟨heq, hle⟩
    · omega
    · exact ⟨hle, hn⟩
  · intro m hnd
    have hs : List.Sorted telemedLe (telemed_sorted_patients m) :=
      List.sorted_insertionSort telemedLe m
    have hperm : (telemed_sorted_patients m).Perm m :=
      List.perm_insertionSort telemedLe m
    have hndout : ((telemed_sorted_patients m).map Prod.fst).Nodup :=
      ((hperm.map Prod.fst).nodup_iff).mpr hnd
    have hne : List.Pairwise (fun a b : String × TPStats => a.1 ≠ b.1)
        (telemed_sorted_patients m) := List.pairwise_map.mp hndout
    refine (hs.and hne).imp ?_
    rintro a b ⟨hr, hn⟩ hpct
    rcases hr with h | ⟨heq, h2 | ⟨hm, hsle⟩⟩
    · rw [hpct] at h
      exact absurd h (lt_irrefl _)
    · exact ⟨le_of_lt h2, fun he => absurd (he ▸ h2) (lt_irrefl _)⟩
    · exact ⟨le_of_eq hm.symm, fun _ => ⟨hsle, hn⟩⟩

/-- Witness for C3 (amended): both sorted listings instantiated on concrete
two-patient inputs with distinct names. -/
theorem claim3_amended_witness :
    (([("A", 1), ("B", 1)] : List (String × Nat)).map Prod.fst).Nodup
    ∧ List.Pairwise (fun a b => a.2 = b.2 → strLt a.1 b.1)
        (report_sorted_items "count" [("A", 1), ("B", 1)])
    ∧ List.Pairwise (fun a b => percentage a.2 = percentage b.2 →
          b.2.telemed_visits ≤ a.2.telemed_visits
          ∧ (a.2.telemed_visits = b.2.telemed_visits → strLt a.1 b.1))
        (telemed_sorted_patients [("A", ⟨1, 1, ∅, ∅⟩), ("B", ⟨1, 1, ∅, ∅⟩)]) :=
  ⟨by decide, claim3_amended.1 _ (by decide), claim3_amended.2 _ (by decide)⟩

/-! ### clientByLocationAndPayer.py: generate_summary_report totals -/

instance : IsAntisymm String strLe := ⟨fun _ _ h1 h2 => strLe_antisymm h1 h2⟩

/-- The sorted location axis of the summary matrix,
`sorted(location_payer_data.keys())` (clientByLocationAndPayer.py line 142). -/
def sortedLocationsOf (m : List (String × List (String × Finset String))) :
    List String :=
  ((m.map Prod.fst).toFinset).sort strLe

/-- The sorted payor axis of the summary matrix: the union of all inner
payor keys, sorted (clientByLocationAndPayer.py lines 137-141). -/
def sortedPayorsOf (m : List (String × List (String × Finset String))) :
    List String :=
  (m.foldl (fun acc e => acc ∪ (e.2.map Prod.fst).toFinset) (∅ : Finset String)).sort strLe

/-- One matrix cell: the distinct-patient count of a (location, payor) pair,
`len(location_payer_data[location].get(payor, set()))`
(clientByLocationAndPayer.py lines 189 and 201). -/
def cellCountOf (m : List (String × List (String × Finset String)))
    (loc py : String) : Nat :=
  (cellSet m loc py).card

/-- A per-location row total: the sum of that location's cells across the
full payor axis (clientByLocationAndPayer.py lines 198-204). -/
def rowTotalOf (m : List (String × List (String × Finset String)))
    (loc : String) : Nat :=
  ((sortedPayorsOf m).map (cellCountOf m loc)).sum

/-- A per-payor column total: the sum of that payor's cells across all
locations (clientByLocationAndPayer.py lines 217-219). -/
def colTotalOf (m : List (String × List (String × Finset String)))
    (py : String) : Nat :=
  ((sortedLocationsOf m).map (fun loc => cellCountOf m loc py)).sum

/-- The grand total, accumulated as the sum of the per-payor column totals
(clientByLocationAndPayer.py lines 215-222). -/
def grandTotalOf (m : List (String × List (String × Finset String))) : Nat :=
  ((sortedPayorsOf m).map (colTotalOf m)).sum

theorem list_sum_map_add {β : Type} (l : List β) (g h : β → Nat) :
    (l.map (fun b => g b + h b)).sum = (l.map g).sum + (l.map h).sum := by
  induction l with
  | nil => rfl
  | cons b t ih =>
      simp only [List.map_cons, List.sum_cons, ih]
      omega

theorem list_sum_comm {α β : Type} (l1 : List α) (l2 : List β) (f : α → β → Nat) :
    (l1.map (fun a => (l2.map (f a)).sum)).sum
      = (l2.map (fun b => (l1.map (fun a => f a b)).sum)).sum := by
  induction l1 with
  | nil =>
      have hz : ∀ l : List β,
          (l.map (fun b => (([] : List α).map (fun a => f a b)).sum)).sum = 0 := by
        intro l
        induction l with
        | nil => rfl
        | cons b t ih => simpa using ih
      simpa using (hz l2).symm
  | cons a l ih =>
      simp only [List.map_cons, List.sum_cons, ih, List.map_cons]
      rw [← list_sum_map_add]

/-- C6. For every input, the summary matrix over the two-dimension
aggregation satisfies the totals invariant: the sum of the per-location row
totals and the sum of the per-payor column totals both equal the grand
total, where each cell is the distinct-patient count of its
(location, payor) pair. -/
theorem claim6_totals_consistency (data : List Record) :
    ((sortedLocationsOf (process_client_by_location_and_payer data)).map
        (rowTotalOf (process_client_by_location_and_payer data))).sum
      = grandTotalOf (process_client_by_location_and_payer data)
    ∧ ((sortedPayorsOf (process_client_by_location_and_payer data)).map
        (colTotalOf (process_client_by_location_and_payer data))).sum
      = grandTotalOf (process_client_by_location_and_payer data)
    ∧ ∀ loc py, cellCountOf (process_client_by_location_and_payer data) loc py
        = (observedPatients2 data loc py).card := by
  refine ⟨?_, rfl, ?_⟩
  · unfold rowTotalOf grandTotalOf colTotalOf
    exact list_sum_comm _ _ (fun loc py => cellCountOf _ loc py)
  · intro loc py
    rw [cellCountOf, cellSet_process_clp_eq_observed]

/-! ### clientByLocationAndPayer.py: analyze_data_gaps breakdown views -/

/-- One iteration of the breakdown bookkeeping inside the two-dimension
`analyze_data_gaps` (clientByLocationAndPayer.py lines 267-287): a
payor-without-location row with a patient adds that patient to the set of
its payor; a location-without-payor row adds to the set of its location. -/
def gapsBreakdownStep
    (acc : List (String × Finset String) × List (String × Finset String))
    (r : Record) :
    List (String × Finset String) × List (String × Finset String) :=
  if fieldOrEmpty r.payor ≠ "" ∧ fieldOrEmpty r.location = "" then
    if fieldOrEmpty r.patient ≠ "" then
      (alInsert acc.1 (fieldOrEmpty r.payor) (fieldOrEmpty r.patient), acc.2)
    else acc
  else if fieldOrEmpty r.location ≠ "" ∧ fieldOrEmpty r.payor = "" then
    if fieldOrEmpty r.patient ≠ "" then
      (acc.1, alInsert acc.2 (fieldOrEmpty r.location) (fieldOrEmpty r.patient))
    else acc
  else acc

/-- The `payor_only_by_payor` dict of the two-dimension `analyze_data_gaps`
(clientByLocationAndPayer.py lines 264, 272-277), in insertion order. -/
def payor_only_by_payor (data : List Record) : List (String × Finset String) :=
  (data.foldl gapsBreakdownStep ([], [])).1

/-- The `location_only_by_location` dict (clientByLocationAndPayer.py
lines 265, 278-283), in insertion order. -/
def location_only_by_location (data : List Record) : List (String × Finset String) :=
  (data.foldl gapsBreakdownStep ([], [])).2

/-- Comparison used by the persisted breakdown,
`sorted(payor_only_by_payor.items())` (clientByLocationAndPayer.py
lines 348 and 356): ordinal order on the grouping value (the dict keys are
unique, so the tuple comparison never reaches the sets). -/
def setKeyLe (a b : String × Finset String) : Prop := strLe a.1 b.1

/-- Comparison used by the console breakdown summary,
`sorted(items, key=lambda x: -len(x[1]))` (clientByLocationAndPayer.py
lines 317 and 323): distinct-patient count descending, no tie-break. -/
def setCountDescLe (a b : String × Finset String) : Prop := b.2.card ≤ a.2.card

instance : DecidableRel setKeyLe := fun a b => by unfold setKeyLe; infer_instance

instance : DecidableRel setCountDescLe := fun a b => by
  unfold setCountDescLe; infer_instance

instance : IsTotal (String × Finset String) setKeyLe :=
  ⟨fun a b => charsLe_total a.1.data b.1.data⟩

instance : IsTrans (String × Finset String) setKeyLe :=
  ⟨fun _ _ _ h1 h2 => charsLe_trans h1 h2⟩

instance : IsTotal (String × Finset String) setCountDescLe :=
  ⟨fun a b => (Nat.le_total b.2.card a.2.card).elim Or.inl Or.inr⟩

instance : IsTrans (String × Finset String) setCountDescLe :=
  ⟨fun _ _ _ h1 h2 => le_trans h2 h1⟩

/-- The breakdown groups in the order the persisted file emits them
(clientByLocationAndPayer.py lines 348 and 356). -/
def persistedBreakdown (m : List (String × Finset String)) :
    List (String × Finset String) :=
  List.insertionSort setKeyLe m

/-- The breakdown groups in the order the console summary emits them:
count-descending, limited to the first 5 (clientByLocationAndPayer.py
lines 317 and 323). -/
def consoleBreakdownTop (m : List (String × Finset String)) :
    List (String × Finset String) :=
  (List.insertionSort setCountDescLe m).take 5

/-- Input rows exercising the breakdown: payor "B" misses a location on two
patients, payor "A" on one. -/
def breakdownExampleRows : List Record :=
  [⟨none, some "B", some "P1", none⟩,
   ⟨none, some "B", some "P2", none⟩,
   ⟨none, some "A", some "P3", none⟩]

/-- C8 counterexample: the persisted breakdown emits payor "A" (1 patient)
before payor "B" (2 patients) — alphabetical ascending order, not the
claimed descending distinct-entity-count order, which would place "B"
first. -/
theorem claim8_counterexample :
    (persistedBreakdown (payor_only_by_payor breakdownExampleRows)).map Prod.fst
        = ["A", "B"]
    ∧ (persistedBreakdown (payor_only_by_payor breakdownExampleRows)).map
        (fun e => e.2.card) = [1, 2]
    ∧ ¬ (2 ≤ 1) := by
  refine ⟨by decide, by decide, by decide⟩

/-- C8 as amended: the persisted breakdown emits the groups of each partial
partition in alphabetical ascending order of the grouping value, while the
console summary emits (at most the first 5) groups in non-increasing
distinct-entity-count order with no alphabetical tie-break. -/
theorem claim8_amended (data : List Record) :
    List.Sorted setKeyLe (persistedBreakdown (payor_only_by_payor data))
    ∧ List.Sorted setKeyLe (persistedBreakdown (location_only_by_location data))
    ∧ List.Sorted setCountDescLe (consoleBreakdownTop (payor_only_by_payor data))
    ∧ List.Sorted setCountDescLe
        (consoleBreakdownTop (location_only_by_location data)) := by
  refine ⟨List.sorted_insertionSort _ _, List.sorted_insertionSort _ _, ?_, ?_⟩
  · exact List.Pairwise.sublist (List.take_sublist 5 _)
      (List.sorted_insertionSort setCountDescLe _)
  · exact List.Pairwise.sublist (List.take_sublist 5 _)
      (List.sorted_insertionSort setCountDescLe _)

/-! ### Truncation and console elision
(telemedPercentage.py / telemedSort.py / clientByLocationAndPayer.py) -/

/-- The two-character-ellipsis truncation applied to free-text aggregate
list cells, `s[:18] + '..' if len(s) > 20 else s` (telemedPercentage.py
line 142; telemedSort.py lines 138-139). -/
def displayTruncate (s : String) : String :=
  if 20 < s.length then pyTake 18 s ++ ".." else s

/-- Model of Python `f-string` padding `:<w`: right-pad with spaces to at
least width `w`. -/
def padRight (s : String) (w : Nat) : String :=
  s ++ ⟨List.replicate (w - s.length) ' '⟩

/-- The payors cell as it is written into the detail line of the persisted
text report (telemedPercentage.py line 142, the line appended to
`report_lines`, which lines 152-154 write to the txt file). -/
def telemedPctTxtPayorsCell (payors_str : String) : String :=
  padRight (displayTruncate payors_str) 20

/-- The payors cell as it is written into the CSV row
(telemedPercentage.py line 146). -/
def telemedPctCsvPayorsCell (payors_str : String) : String := payors_str

/-- The locations cell of the persisted text detail line in telemedSort.py
(lines 138 and 141, written to the txt file at lines 150-152). -/
def telemedSortTxtLocCell (locations_str : String) : String :=
  displayTruncate locations_str

/-- The locations cell of the CSV row in telemedSort.py (line 144). -/
def telemedSortCsvLocCell (locations_str : String) : String := locations_str

/-- The console return value of `generate_telemedicine_percentage_report`
(telemedPercentage.py lines 168-171): over 40 console lines, elide to the
first 40 plus an explicit marker plus the last 3 report lines. -/
def telemedPctConsole (console_lines report_lines : List String) : List String :=
  if 40 < console_lines.length then
    console_lines.take 40 ++ ["\n... (see full report in file)"]
      ++ report_lines.drop (report_lines.length - 3)
  else console_lines ++ report_lines.drop (report_lines.length - 3)

/-- The lines written to the persisted text file
(telemedPercentage.py lines 152-154): the full report, never elided. -/
def telemedPctTxtLines (report_lines : List String) : List String := report_lines

/-- The console return value of `generate_telemedicine_report`
(telemedSort.py line 167): the first 50 lines, with no marker. -/
def telemedSortConsole (report_lines : List String) : List String :=
  report_lines.take 50

/-- The payor columns of the console summary-matrix header: the first 5
payors, each cut to 12 characters (clientByLocationAndPayer.py
lines 171-173). -/
def consoleMatrixPayors (sorted_payors : List String) : List String :=
  (sorted_payors.take 5).map (pyTake 12)

/-- The payor columns of the persisted text summary-matrix header: every
payor, untruncated (clientByLocationAndPayer.py lines 163-166). -/
def txtMatrixPayors (sorted_payors : List String) : List String := sorted_payors

/-- The CSV header row of the summary matrix (clientByLocationAndPayer.py
line 181): every payor column plus the total column, untruncated. -/
def csvMatrixHeader (sorted_payors : List String) : List String :=
  "Location" :: sorted_payors ++ ["Total"]

/-- C4 counterexample: a 21-character payor list is written into the
persisted text report with the two-character ellipsis truncation — the
persisted flat-text output does not carry the full cell value (only the
delimited output does). -/
theorem claim4_counterexample :
    displayTruncate "ABCDEFGHIJKLMNOPQRSTU" = "ABCDEFGHIJKLMNOPQR.."
    ∧ displayTruncate "ABCDEFGHIJKLMNOPQRSTU" ≠ "ABCDEFGHIJKLMNOPQRSTU"
    ∧ telemedPctTxtPayorsCell "ABCDEFGHIJKLMNOPQRSTU"
        = padRight "ABCDEFGHIJKLMNOPQR.." 20
    ∧ telemedPctCsvPayorsCell "ABCDEFGHIJKLMNOPQRSTU" = "ABCDEFGHIJKLMNOPQRSTU"
    ∧ telemedSortTxtLocCell "ABCDEFGHIJKLMNOPQRSTU" ≠ "ABCDEFGHIJKLMNOPQRSTU" := by
  refine ⟨by decide, by decide, by decide, rfl, by decide⟩

/-- C4 as amended: the persisted delimited (CSV) outputs always carry the
full, untruncated cell values, but the persisted flat-text reports of
telemedPercentage.py and telemedSort.py carry the same two-character
ellipsis truncation as the display for free-text aggregate cells longer
than 20 characters (and the full value only up to 20 characters); the
display budgets — first 5 matrix columns, first 40 console lines with an
explicit elision marker — apply only to console rendering, and the
persisted text outputs are never elided. -/
theorem claim4_amended :
    (∀ s : String, telemedPctCsvPayorsCell s = s ∧ telemedSortCsvLocCell s = s)
    ∧ (∀ s : String, s.length ≤ 20 →
        telemedPctTxtPayorsCell s = padRight s 20 ∧ telemedSortTxtLocCell s = s)
    ∧ (∀ s : String, 20 < s.length →
        telemedPctTxtPayorsCell s = padRight (pyTake 18 s ++ "..") 20
        ∧ telemedSortTxtLocCell s = pyTake 18 s ++ ".."
        ∧ telemedSortTxtLocCell s ≠ s)
    ∧ (∀ cl rl : List String, 40 < cl.length →
        telemedPctConsole cl rl
          = cl.take 40 ++ ["\n... (see full report in file)"]
              ++ rl.drop (rl.length - 3)
        ∧ telemedPctTxtLines rl = rl)
    ∧ (∀ ps : List String, 5 < ps.length →
        consoleMatrixPayors ps = (ps.take 5).map (pyTake 12)
        ∧ txtMatrixPayors ps = ps
        ∧ csvMatrixHeader ps = "Location" :: ps ++ ["Total"]) := by
  refine ⟨fun s => ⟨rfl, rfl⟩, ?_, ?_, ?_, fun ps _ => ⟨rfl, rfl, rfl⟩⟩
  · intro s hs
    have hd : displayTruncate s = s := by
      rw [displayTruncate, if_neg (by omega)]
    exact ⟨by rw [telemedPctTxtPayorsCell, hd], by rw [telemedSortTxtLocCell, hd]⟩
  · intro s hs
    have hd : displayTruncate s = pyTake 18 s ++ ".." := by
      rw [displayTruncate, if_pos hs]
    have h18 : (pyTake 18 s).length = 18 := by
      have heq : (pyTake 18 s).length = (s.data.take 18).length := rfl
      have hs2 : s.length = s.data.length := rfl
      rw [heq, List.length_take]
      omega
    have hlen : (pyTake 18 s ++ "..").length = 20 := by
      rw [String.length_append, h18]
      rfl
    have hne : pyTake 18 s ++ ".." ≠ s := by
      intro he
      have : (pyTake 18 s ++ "..").length = s.length := by rw [he]
      omega
    exact ⟨by rw [telemedPctTxtPayorsCell, hd],
      by rw [telemedSortTxtLocCell, hd],
      by rw [telemedSortTxtLocCell, hd]; exact hne⟩
  · intro cl rl hcl
    exact ⟨by rw [telemedPctConsole, if_pos hcl], rfl⟩

/-- Witness for C4 (amended): concrete short and long cells, an over-budget
console line list, and a six-payor matrix axis. -/
theorem claim4_amended_witness :
    (("short" : String).length ≤ 20
      ∧ telemedPctTxtPayorsCell "short" = padRight "short" 20)
    ∧ (20 < ("ABCDEFGHIJKLMNOPQRSTU" : String).length
      ∧ telemedSortTxtLocCell "ABCDEFGHIJKLMNOPQRSTU"
          = pyTake 18 "ABCDEFGHIJKLMNOPQRSTU" ++ "..")
    ∧ (40 < (List.replicate 41 "x").length
      ∧ telemedPctConsole (List.replicate 41 "x") ["a", "b", "c", "d"]
          = (List.replicate 41 "x").take 40 ++ ["\n... (see full report in file)"]
              ++ ["b", "c", "d"])
    ∧ (5 < (["p1", "p2", "p3", "p4", "p5", "p6"] : List String).length
      ∧ txtMatrixPayors ["p1", "p2", "p3", "p4", "p5", "p6"]
          = ["p1", "p2", "p3", "p4", "p5", "p6"]) := by
  refine ⟨⟨by decide, (claim4_amended.2.1 "short" (by decide)).1⟩,
    ⟨by decide, (claim4_amended.2.2.1 "ABCDEFGHIJKLMNOPQRSTU" (by decide)).2.1⟩,
    ⟨by decide, ?_⟩,
    ⟨by decide, (claim4_amended.2.2.2.2 ["p1", "p2", "p3", "p4", "p5", "p6"]
        (by decide)).2.1⟩⟩
  have h := (claim4_amended.2.2.2.1 (List.replicate 41 "x") ["a", "b", "c", "d"]
      (by decide)).1
  rw [h]
  rfl

end LFS
